import Mathlib

/-!
Verification of the retrieval-and-graph core of the compliance assistant.

Each Python function of the repository is shallowly embedded as a Lean
definition of the same name (module prefixes become namespaces, the leading
underscore of private helpers is dropped because Lean identifiers may not
start with `_`).  Numeric code is modelled over `ℚ` (or `ℝ` where square
roots occur); Python dictionaries with a fixed insertion order are modelled
as association lists; the external AI provider is passed in as an explicit
function argument, mirroring the port abstraction the code hides behind
`self.ai_client`.
-/

namespace ComplianceAnalyzer

/-- Rounding of `y` to the nearest integer, ties to even, mirroring Python's
`round` (banker's rounding) on an exact rational value. -/
def round_half_even (y : ℚ) : ℤ :=
  if y - ⌊y⌋ = 1/2 then (if (2 : ℤ) ∣ ⌊y⌋ then ⌊y⌋ else ⌊y⌋ + 1) else round y

/-- Python `round(x, 2)`: round to two decimal places. -/
def round2 (x : ℚ) : ℚ := (round_half_even (100 * x) : ℚ) / 100

/-- Embedding of `ComplianceAnalyzer._calculate_risk_score`
(src/compliance_analyzer.py lines 122-142).  `base_scores.get` and
`risk_multipliers.get` with their defaults become chained `if`s. -/
def calculate_risk_score (compliance_status risk_level : String) (confidence : ℚ) : ℚ :=
  let base_score : ℚ :=
    if compliance_status = "Compliant" then 1/10
    else if compliance_status = "Violation" then 9/10
    else if compliance_status = "Risk" then 6/10
    else if compliance_status = "Unknown" then 5/10
    else 5/10
  let risk_multiplier : ℚ :=
    if risk_level = "Low" then 3/10
    else if risk_level = "Medium" then 6/10
    else if risk_level = "High" then 1
    else 6/10
  let risk_score := base_score * risk_multiplier * confidence
  round2 (min (max risk_score 0) 1)

/-- The base table exactly as the specification writes it
(`base = {Compliant:0.1, Violation:0.9, Risk:0.6, Unknown:0.5}`); statuses
outside the table are mapped to an arbitrary junk value, the claim only
quantifies over the four listed statuses. -/
def spec_base (status : String) : ℚ :=
  if status = "Compliant" then 1/10
  else if status = "Violation" then 9/10
  else if status = "Risk" then 6/10
  else if status = "Unknown" then 5/10
  else 0

/-- The multiplier table exactly as the specification writes it
(`multiplier = {Low:0.3, Medium:0.6, High:1.0}`, default 0.6 if
unrecognized). -/
def spec_multiplier (level : String) : ℚ :=
  if level = "Low" then 3/10
  else if level = "Medium" then 6/10
  else if level = "High" then 1
  else 6/10

/-- A structured judgment returned by the generation provider, after the
lenient parse and the per-field defaults of `_assess_compliance_risk`
(`analysis_result.get("compliance_status", "Unknown")` etc.). -/
structure AIAnalysis where
  compliance_status : String
  risk_level : String
  confidence : ℚ
deriving DecidableEq, Repr

/-- A regulation segment as consumed by the risk assessment (only the
`content` field is read). -/
structure Regulation where
  content : String
deriving DecidableEq, Repr

/-- The fields of the dictionary `_assess_compliance_risk` returns that the
claims speak about. -/
structure Assessment where
  compliance_status : String
  risk_level : String
  risk_score : ℚ
deriving DecidableEq, Repr

/-- Embedding of `ComplianceAnalyzer._assess_compliance_risk`
(src/compliance_analyzer.py lines 94-120).  The call
`self.ai_client.analyze_compliance(...)` is abstracted as the argument
`ai : String → String → AIAnalysis` (the generation port); the
concatenation of the top five regulation texts is kept so the provider sees
the same input as in the source. -/
def assess_compliance_risk (ai : String → String → AIAnalysis)
    (business_description : String) (regulations : List Regulation) : Assessment :=
  if regulations.isEmpty then
    { compliance_status := "Unable to Determine"
      risk_level := "Medium"
      risk_score := 1/2 }
  else
    let relevant_reg_text := String.intercalate "\n\n"
      ((regulations.take 5).map Regulation.content)
    let analysis_result := ai business_description relevant_reg_text
    { compliance_status := analysis_result.compliance_status
      risk_level := analysis_result.risk_level
      risk_score := calculate_risk_score analysis_result.compliance_status
        analysis_result.risk_level analysis_result.confidence }

end ComplianceAnalyzer

namespace KnowledgeGraph

/-- A text segment handed to entity extraction (`storage.load_segments`
returns dictionaries with `id` and `content`). -/
structure Segment where
  id : String
  content : String
deriving DecidableEq, Repr

/-- An entity dictionary as produced by
`KnowledgeGraphBuilder.extract_entities_from_document`.  The `id` field is a
fresh UUID in the source; it is carried as given data here. -/
structure Entity where
  id : String
  text : String
  type : String
  document_id : String
  segment_id : String
  confidence : ℚ
  source : String
deriving DecidableEq, Repr

/-- A graph node as built by `build_knowledge_graph`; only the fields the
merge and query algorithms read (`id`, `label`, `type`) are modelled, the
`properties` sub-dictionary is never inspected by them. -/
structure Node where
  id : String
  label : String
  type : String
deriving DecidableEq, Repr

/-- A relationship/edge dictionary as produced by `find_relationships`; the
UUID `id` field is never read and is omitted. -/
structure Edge where
  source : String
  target : String
  relation : String
  confidence : ℚ
  evidence : String
deriving DecidableEq, Repr

/-- The `entity_types` table of `KnowledgeGraphBuilder.__init__`
(src/knowledge_graph.py lines 12-18), an insertion-ordered dictionary. -/
def entity_types : List (String × String) :=
  [("legal_articles", "LEGAL_ARTICLE"),
   ("violations", "VIOLATION"),
   ("penalties", "PENALTY"),
   ("responsible_parties", "RESPONSIBLE_PARTY"),
   ("related_concepts", "CONCEPT")]

/-- Embedding of the per-segment body of
`KnowledgeGraphBuilder.extract_entities_from_document`
(src/knowledge_graph.py lines 115-137).  The two extraction strategies are
passed as functions: `aiExtract` is `self.ai_client.extract_legal_entities`
(the model-driven strategy behind the generation port) and `localExtract` is
`self._local_entity_extraction` (the rule-based fallback); both return the
five categorized string lists as an insertion-ordered dictionary.  Python's
`if not any(entities.values())` fallback test and the
`0.8 if any(entities.values()) else 0.6` confidence expression are kept
verbatim; the per-entity UUID is modelled as `""` since no claim reads it.
The result flattens Python's category-keyed accumulator dictionary into
(category, entity) pairs. -/
def extract_segment_entities (aiExtract localExtract : String → List (String × List String))
    (doc_id : String) (segment : Segment) : List (String × Entity) :=
  let tried := aiExtract segment.content
  let entities := if tried.all (fun p => p.2.isEmpty) then localExtract segment.content
    else tried
  entities.flatMap (fun p =>
    if (entity_types.lookup p.1).isSome then
      p.2.map (fun entity_text =>
        (p.1,
          { id := ""
            text := entity_text
            type := (entity_types.lookup p.1).getD "UNKNOWN"
            document_id := doc_id
            segment_id := segment.id
            confidence := if entities.any (fun q => !q.2.isEmpty) then 8/10 else 6/10
            source := segment.content.take 200 ++ "..." }))
    else [])

/-- Embedding of `KnowledgeGraphBuilder.extract_entities_from_document`
over the segments of one document. -/
def extract_entities_from_document (aiExtract localExtract : String → List (String × List String))
    (doc_id : String) (segments : List Segment) : List (String × Entity) :=
  segments.flatMap (extract_segment_entities aiExtract localExtract doc_id)

/-- Embedding of `KnowledgeGraphBuilder._determine_relation_type`
(src/knowledge_graph.py lines 164-175): the fixed ordered category-pair
table, `""` (Python's falsy default) for pairs outside it. -/
def determine_relation_type (type1 type2 : String) : String :=
  if type1 = "legal_articles" ∧ type2 = "violations" then "regulates"
  else if type1 = "violations" ∧ type2 = "penalties" then "leads_to"
  else if type1 = "legal_articles" ∧ type2 = "penalties" then "specifies_penalty"
  else if type1 = "responsible_parties" ∧ type2 = "violations" then "commits"
  else if type1 = "related_concepts" ∧ type2 = "legal_articles" then "involves"
  else if type1 = "related_concepts" ∧ type2 = "violations" then "defines"
  else ""

/-- Embedding of `KnowledgeGraphBuilder.find_relationships`
(src/knowledge_graph.py lines 141-162): the four nested loops over the
category-keyed entity dictionary, the distinct-category and same-segment
guards, and the truthiness test `if relation_type:` on the looked-up
relation.  The edge UUID is omitted. -/
def find_relationships (entities : List (String × List Entity)) : List Edge :=
  entities.flatMap (fun p1 =>
    p1.2.flatMap (fun entity1 =>
      entities.flatMap (fun p2 =>
        if p1.1 ≠ p2.1 then
          p2.2.filterMap (fun entity2 =>
            if entity1.segment_id = entity2.segment_id then
              if determine_relation_type p1.1 p2.1 ≠ "" then
                some { source := entity1.id
                       target := entity2.id
                       relation := determine_relation_type p1.1 p2.1
                       confidence := 7/10
                       evidence := entity1.source }
              else none
            else none)
        else [])))

/-- Python's `sum(1 for a, b in zip(text1, text2) if a == b)`. -/
def common_chars (text1 text2 : List Char) : ℕ :=
  ((text1.zip text2).filter (fun p => p.1 = p.2)).length

/-- The character-positional-match ratio of `_is_similar_text`:
matching positions over the longer length (`ℚ` division, so the ratio of
two empty strings is `0`). -/
def similarity_ratio (text1 text2 : String) : ℚ :=
  (common_chars text1.toList text2.toList : ℚ) / ((max text1.length text2.length : ℕ) : ℚ)

/-- Embedding of `KnowledgeGraphBuilder._is_similar_text`
(src/knowledge_graph.py lines 260-271). -/
def is_similar_text (text1 text2 : String) (threshold : ℚ) : Bool :=
  if text1 = text2 then true
  else if text1.length < 3 ∨ text2.length < 3 then false
  else threshold ≤ similarity_ratio text1 text2

/-- The inner loop of `_merge_similar_entities` (src/knowledge_graph.py
lines 233-240): scan the nodes after `node1`, skipping already-processed
ids, collecting into `node1`'s group every node of identical `type` and
similar label, and marking each collected id processed as the scan
proceeds.  Returns the collected group tail and the updated processed
set (modelled as a list used only through membership). -/
def collect_members (node1 : Node) : List Node → List String → List Node × List String
  | [], processed => ([], processed)
  | node2 :: rest, processed =>
    if node2.id ∈ processed then collect_members node1 rest processed
    else if node1.type = node2.type ∧ is_similar_text node1.label node2.label (8/10) then
      let r := collect_members node1 rest (node2.id :: processed)
      (node2 :: r.1, r.2)
    else collect_members node1 rest processed

/-- The outer loop of `_merge_similar_entities` (src/knowledge_graph.py
lines 228-244): each unprocessed node heads a candidate group; groups that
collected at least one other member are kept (as head × tail, since
`group[0]`/`group[1:]` is how the source consumes them), the head id is
marked processed afterwards. -/
def collect_groups : List Node → List String → List (Node × List Node)
  | [], _ => []
  | node1 :: rest, processed =>
    if node1.id ∈ processed then collect_groups rest processed
    else if (collect_members node1 rest processed).1.isEmpty then
      collect_groups rest (node1.id :: (collect_members node1 rest processed).2)
    else
      (node1, (collect_members node1 rest processed).1) ::
        collect_groups rest (node1.id :: (collect_members node1 rest processed).2)

/-- The ids of the merged-away members of a group (`merge_ids` in the
source). -/
def tail_ids (g : Node × List Node) : List String := g.2.map Node.id

/-- All ids mentioned by a group: the representative's followed by the
merged-away members'. -/
def group_ids (g : Node × List Node) : List String := g.1.id :: tail_ids g

/-- The endpoint rewrite of `_merge_similar_entities` for one group: an id
equal to a merged-away member id becomes the representative (head) id. -/
def rewrite_id (g : Node × List Node) (x : String) : String :=
  if x ∈ tail_ids g then g.1.id else x

/-- The edge-rewrite pass of `_merge_similar_entities` for one group
(src/knowledge_graph.py lines 246-254): both endpoints of every edge go
through `rewrite_id`. -/
def apply_group (g : Node × List Node) (edges : List Edge) : List Edge :=
  edges.map (fun e =>
    { e with
      source := rewrite_id g e.source
      target := rewrite_id g e.target })

/-- The composite endpoint rewrite over the whole group list, in group
order. -/
def rewrite_id_all (gs : List (Node × List Node)) (x : String) : String :=
  gs.foldl (fun y g => rewrite_id g y) x

/-- The node-removal pass of `_merge_similar_entities` for one group
(src/knowledge_graph.py lines 256-258).  Python removes the first
structurally-equal occurrence guarded by a membership test; `List.erase`
removes the first equal occurrence and is the identity when absent, the
same effect. -/
def remove_group_nodes (g : Node × List Node) (nodes : List Node) : List Node :=
  g.2.foldl (fun ns m => ns.erase m) nodes

/-- Embedding of `KnowledgeGraphBuilder._merge_similar_entities`
(src/knowledge_graph.py lines 223-258).  The source mutates `nodes` and
`edges` in place group by group; since the edge rewrites never read the
node list and the node removals never read the edge list, running the two
per-group passes as two folds over the same pre-computed group list is
behaviorally identical.  Returns the final (nodes, edges) pair. -/
def merge_similar_entities (nodes : List Node) (edges : List Edge) :
    List Node × List Edge :=
  let groups := collect_groups nodes []
  (groups.foldl (fun ns g => remove_group_nodes g ns) nodes,
   groups.foldl (fun es g => apply_group g es) edges)

/-- Fixed input for the C6 witness: one legal article and one violation in
the same segment. -/
def c6_entities : List (String × List Entity) :=
  [("legal_articles", [⟨"a", "Article 5", "LEGAL_ARTICLE", "d", "s1", 8/10, "src"⟩]),
   ("violations", [⟨"b", "breach", "VIOLATION", "d", "s1", 8/10, "src"⟩])]

/-- Fixed nodes for the C5 witness: two similar VIOLATION nodes and one
PENALTY node. -/
def c5_nodes : List Node :=
  [⟨"1", "price fixing", "VIOLATION"⟩,
   ⟨"2", "price fixing!", "VIOLATION"⟩,
   ⟨"3", "penalty", "PENALTY"⟩]

/-- Fixed edges for the C5 witness: one edge out of the to-be-merged
node. -/
def c5_edges : List Edge :=
  [⟨"2", "3", "leads_to", 7/10, "ev"⟩]

/-- A stored knowledge graph as read back by `query_knowledge_graph`. -/
structure Graph where
  nodes : List Node
  edges : List Edge
deriving DecidableEq, Repr

/-- The edge loop of `query_knowledge_graph` (src/knowledge_graph.py lines
289-294): an edge is kept when one of its endpoints is already related and
the optional relation filter matches; both endpoints of a kept edge become
related for the remaining iterations.  State is (kept edges, related ids);
the Python `set` is modelled as a list used only through membership. -/
def query_edge_loop (relation_type : Option String) :
    List Edge → List Edge × List String → List Edge × List String
  | [], st => st
  | e :: rest, (acc, ids) =>
    if (e.source ∈ ids ∨ e.target ∈ ids) ∧
        (relation_type = none ∨ relation_type = some e.relation) then
      query_edge_loop relation_type rest (acc ++ [e], e.target :: e.source :: ids)
    else
      query_edge_loop relation_type rest (acc, ids)

/-- Embedding of `KnowledgeGraphBuilder.query_knowledge_graph`
(src/knowledge_graph.py lines 273-306) on a loaded graph: nodes whose
lower-cased label contains the lower-cased query as a substring seed the
related-id set, the edge loop expands it one hop, and the returned nodes
are all stored nodes whose id ended up related.  (The empty-graph guard of
the source concerns the storage layer and is outside this model.) -/
def query_knowledge_graph (graph_data : Graph) (entity_name : String)
    (relation_type : Option String) : List Node × List Edge :=
  let matching_nodes := graph_data.nodes.filter
    (fun n => decide (entity_name.toLower.toList <:+: n.label.toLower.toList))
  let r := query_edge_loop relation_type graph_data.edges
    ([], matching_nodes.map Node.id)
  (graph_data.nodes.filter (fun n => n.id ∈ r.2), r.1)

end KnowledgeGraph

namespace VectorService

/-- A stored embedded segment (`segment` dictionaries inside
`vectors_data[doc_id]["segments"]`); only the fields the search path reads
are modelled. -/
structure Seg where
  content : String
  vector : List ℚ
deriving DecidableEq, Repr

/-- One document's index entry as stored by `create_regulation_index`. -/
structure DocIndex where
  segments : List Seg
deriving DecidableEq, Repr

/-- Stable insertion into a list sorted non-increasingly by score.  The
inserted element `x` is the earlier one in input order, so among equal
scores it goes first, exactly the tie behavior of Python's stable
`list.sort(key=..., reverse=True)`. -/
def insert_desc (x : ℚ × Seg) : List (ℚ × Seg) → List (ℚ × Seg)
  | [] => [x]
  | y :: ys => if y.1 ≤ x.1 then x :: y :: ys else y :: insert_desc x ys

/-- Stable non-increasing sort by score.  Any two stable sorts under the
same total preorder agree extensionally, so this insertion sort is the
behavior of `similarities.sort(key=lambda x: x[0], reverse=True)`
(src/vector_service.py line 60). -/
def sort_desc : List (ℚ × Seg) → List (ℚ × Seg)
  | [] => []
  | x :: xs => insert_desc x (sort_desc xs)

/-- Embedding of `VectorEmbeddingService.find_similar_segments`
(src/vector_service.py lines 40-68).  The embedding port call for the query
is abstracted into the given `query_embedding`, and `calculate_similarity`
into the function argument `sim`; segments are modelled as always carrying
a vector (the `"vector" in segment` guard).  The `(similarity, segment)`
pairs of the source are returned directly: attaching `similarity_score` to
a copied segment dictionary carries the same information. -/
def find_similar_segments (sim : List ℚ → List ℚ → ℚ) (query_embedding : List ℚ)
    (vectors_data : List (String × DocIndex)) (top_k : ℕ) : List (ℚ × Seg) :=
  if (vectors_data.flatMap (fun d => d.2.segments)).isEmpty then []
  else
    (sort_desc ((vectors_data.flatMap (fun d => d.2.segments)).map
      (fun segment => (sim query_embedding segment.vector, segment)))).take top_k

/-- The optional `filters` dictionary of `search_regulations`. -/
structure Filters where
  min_similarity : Option ℚ
  keywords : Option (List String)
deriving Repr

/-- Embedding of `VectorEmbeddingService.search_regulations`
(src/vector_service.py lines 88-110): over-fetch `top_k * 2`, apply the
optional minimum-similarity and keyword filters, truncate to `top_k`. -/
def search_regulations (sim : List ℚ → List ℚ → ℚ) (query_embedding : List ℚ)
    (vectors_data : List (String × DocIndex)) (filters : Option Filters)
    (top_k : ℕ) : List (ℚ × Seg) :=
  let similar_segments := find_similar_segments sim query_embedding vectors_data (top_k * 2)
  let filtered := match filters with
    | none => similar_segments
    | some f => similar_segments.filter (fun s =>
        (match f.min_similarity with
         | some m => decide (m ≤ s.1)
         | none => true) &&
        (match f.keywords with
         | some kws => kws.any (fun k => decide (k.toList <:+: s.2.content.toList))
         | none => true))
  filtered.take top_k

/-- Fixed store for the C7 witness: three segments over two documents. -/
def c7_store : List (String × DocIndex) :=
  [("d1", ⟨[⟨"alpha", [1, 0]⟩, ⟨"beta", [0, 1]⟩]⟩),
   ("d2", ⟨[⟨"gamma", [1, 1]⟩]⟩)]

/-- Pairwise products summed, `np.dot` on (a prefix-aligned pair of) real
vectors; embedding dimensions always agree in the source, and no claim
depends on the mismatched case. -/
def dotR : List ℝ → List ℝ → ℝ
  | x :: xs, y :: ys => x * y + dotR xs ys
  | _, _ => 0

/-- The Euclidean magnitude of a vector. -/
noncomputable def l2norm (v : List ℝ) : ℝ := Real.sqrt (dotR v v)

/-- Row normalization as `sklearn.metrics.pairwise.cosine_similarity`
performs it: divide by the magnitude, except that a zero-magnitude row is
left unchanged (sklearn substitutes norm 1), which over `ℝ` is the same
thing since a zero-norm real vector is the zero vector. -/
noncomputable def normalize_row (v : List ℝ) : List ℝ :=
  if l2norm v = 0 then v else v.map (fun x => x / l2norm v)

/-- Embedding of `VectorEmbeddingService.calculate_similarity`
(src/vector_service.py lines 29-38) over `ℝ` (the idealization of the
float computation): empty inputs (Python's falsy-list guard) give `0.0`,
otherwise the sklearn cosine of the two rows, i.e. the dot product of the
normalized rows.  No division by a zero magnitude ever happens: zero rows
are never divided. -/
noncomputable def calculate_similarity (vector1 vector2 : List ℝ) : ℝ :=
  if vector1 = [] ∨ vector2 = [] then 0
  else dotR (normalize_row vector1) (normalize_row vector2)

end VectorService

namespace RAGService

/-- The item rendering `f"[Document {i}] {doc['content']}"` of
`RAGService._build_context_text`. -/
def doc_text (i : ℕ) (content : String) : String :=
  "[Document " ++ toString i ++ "] " ++ content

/-- Embedding of the loop of `RAGService._build_context_text`
(src/rag_service.py lines 114-132): items are appended while they fit; the
first item whose addition would push the cumulative length strictly past
`max_length` is truncated to the remaining budget and suffixed with `"..."`
when that budget exceeds 100 characters, otherwise dropped; either way the
loop stops there.  Natural subtraction agrees with the source because the
cumulative length never exceeds `max_length` when the remaining-budget test
is reached with a larger `current_length` (a negative Python remainder and
a truncated-to-zero `ℕ` remainder both fail the `> 100` test). -/
def build_context_parts : List String → ℕ → ℕ → ℕ → List String
  | [], _, _, _ => []
  | content :: rest, i, current_length, max_length =>
    if current_length + (doc_text i content).length > max_length then
      if max_length - current_length > 100 then
        [(doc_text i content).take (max_length - current_length) ++ "..."]
      else []
    else
      doc_text i content ::
        build_context_parts rest (i + 1)
          (current_length + (doc_text i content).length) max_length

/-- Embedding of `RAGService._build_context_text`: the parts joined by
blank lines (the separators are not counted against the budget, as in the
source). -/
def build_context_text (context_docs : List String) (max_length : ℕ) : String :=
  String.intercalate "\n\n" (build_context_parts context_docs 1 0 max_length)

/-- The context builder exactly as claim C8 words it, tracking the
remaining character budget: an item is kept whole when it fits, and the
first overflowing item is truncated in place with an ellipsis marker when
AT LEAST 100 characters of budget remain, dropped entirely otherwise. -/
def build_context_parts_claim : List String → ℕ → ℕ → List String
  | [], _, _ => []
  | content :: rest, i, budget =>
    if (doc_text i content).length ≤ budget then
      doc_text i content ::
        build_context_parts_claim rest (i + 1) (budget - (doc_text i content).length)
    else if 100 ≤ budget then [(doc_text i content).take budget ++ "..."]
    else []

/-- The claim-worded context builder joined by blank lines. -/
def build_context_text_claim (context_docs : List String) (max_chars : ℕ) : String :=
  String.intercalate "\n\n" (build_context_parts_claim context_docs 1 max_chars)

/-- The amended claim's context builder: identical to
`build_context_parts_claim` except that truncation requires STRICTLY more
than 100 characters of remaining budget. -/
def build_context_parts_amended : List String → ℕ → ℕ → List String
  | [], _, _ => []
  | content :: rest, i, budget =>
    if (doc_text i content).length ≤ budget then
      doc_text i content ::
        build_context_parts_amended rest (i + 1) (budget - (doc_text i content).length)
    else if 100 < budget then [(doc_text i content).take budget ++ "..."]
    else []

end RAGService

namespace KnowledgeGraph

theorem mem_ite_nil {α : Type} (c : Prop) [Decidable c] (l : List α) (a : α) :
    a ∈ (if c then l else []) ↔ c ∧ a ∈ l := by
  split <;> simp_all

theorem common_chars_cons (a b : Char) (l1 l2 : List Char) :
    common_chars (a :: l1) (b :: l2) = (if a = b then 1 else 0) + common_chars l1 l2 := by
  by_cases h : a = b <;>
    simp [common_chars, List.zip_cons_cons, List.filter_cons, h, Nat.add_comm]

theorem common_chars_le_left (l1 l2 : List Char) : common_chars l1 l2 ≤ l1.length := by
  calc common_chars l1 l2 ≤ (l1.zip l2).length := List.length_filter_le _ _
    _ ≤ l1.length := by rw [List.length_zip]; exact Nat.min_le_left _ _

theorem common_chars_le_right (l1 l2 : List Char) : common_chars l1 l2 ≤ l2.length := by
  calc common_chars l1 l2 ≤ (l1.zip l2).length := List.length_filter_le _ _
    _ ≤ l2.length := by rw [List.length_zip]; exact Nat.min_le_right _ _

theorem eq_of_common_chars : ∀ (l1 l2 : List Char), l1.length = l2.length →
    common_chars l1 l2 = l1.length → l1 = l2
  | [], [], _, _ => rfl
  | [], _ :: _, hlen, _ => by simp at hlen
  | _ :: _, [], hlen, _ => by simp at hlen
  | a :: l1, b :: l2, hlen, hc => by
    rw [common_chars_cons] at hc
    have hlen' : l1.length = l2.length := by simpa using hlen
    have hle := common_chars_le_left l1 l2
    simp only [List.length_cons] at hc
    by_cases hab : a = b
    · subst hab
      rw [if_pos rfl] at hc
      have h' : common_chars l1 l2 = l1.length := by omega
      rw [eq_of_common_chars l1 l2 hlen' h']
    · rw [if_neg hab] at hc
      omega

/-- If the positional-match ratio reaches the threshold then the two texts
are deemed similar: either both are long enough for the ratio branch, or
the arithmetic forces them to be identical. -/
theorem similar_of_ratio (t1 t2 : String) (h : 8/10 ≤ similarity_ratio t1 t2) :
    is_similar_text t1 t2 (8/10) = true := by
  by_cases heq : t1 = t2
  · simp [is_similar_text, heq]
  · have hlen1 : t1.length = t1.toList.length := rfl
    have hlen2 : t2.length = t2.toList.length := rfl
    rw [similarity_ratio] at h
    set c := common_chars t1.toList t2.toList with hc
    set M := max t1.length t2.length with hM
    have hM0 : 0 < M := by
      rcases Nat.eq_zero_or_pos M with h0 | h0
      · exfalso
        rw [h0] at h
        norm_num at h
      · exact h0
    have hratio : (8:ℚ)/10 ≤ (c : ℚ) / (M : ℚ) := h
    have hMQ : (0:ℚ) < (M : ℚ) := by exact_mod_cast hM0
    rw [le_div_iff₀ hMQ] at hratio
    have hcast : (8:ℚ) * M ≤ 10 * c := by linarith
    have hnat : 8 * M ≤ 10 * c := by exact_mod_cast hcast
    have hcle1 : c ≤ t1.length := by rw [hlen1]; exact common_chars_le_left _ _
    have hcle2 : c ≤ t2.length := by rw [hlen2]; exact common_chars_le_right _ _
    have hmax1 : t1.length ≤ M := le_max_left _ _
    have hmax2 : t2.length ≤ M := le_max_right _ _
    have hMeq : M = t1.length ∨ M = t2.length := by
      rcases max_choice t1.length t2.length with h' | h' <;> [left; right] <;> omega
    by_cases h3 : t1.length < 3 ∨ t2.length < 3
    · exfalso
      have hmn : c ≤ 2 := by omega
      have hcM : c = M := by omega
      have hleneq : t1.length = t2.length := by omega
      have h1 : t1.toList.length = t2.toList.length := by
        rw [← hlen1, ← hlen2]; exact hleneq
      have h2 : common_chars t1.toList t2.toList = t1.toList.length := by
        rw [← hc, ← hlen1]; omega
      exact heq (String.ext (eq_of_common_chars _ _ h1 h2))
    · rw [is_similar_text, if_neg heq, if_neg h3, decide_eq_true_eq, similarity_ratio]
      exact h

/-- Claim C4: with the 0.8 default threshold, the merge similarity test
holds exactly when the labels are equal or both have length at least 3 and
the positional-match ratio is at least 0.8; every pair strictly below the
0.8 ratio and not equal fails the test, every pair at or above the ratio
passes it; and the group-collection step of the merge admits a node into a
group only when its type equals the group head's type and this similarity
test passes. -/
theorem c4_merge_similarity :
    (∀ t1 t2 : String,
      is_similar_text t1 t2 (8/10) = true ↔
        (t1 = t2 ∨ (3 ≤ t1.length ∧ 3 ≤ t2.length ∧ 8/10 ≤ similarity_ratio t1 t2))) ∧
    (∀ t1 t2 : String, t1 ≠ t2 → similarity_ratio t1 t2 < 8/10 →
      is_similar_text t1 t2 (8/10) = false) ∧
    (∀ t1 t2 : String, 8/10 ≤ similarity_ratio t1 t2 →
      is_similar_text t1 t2 (8/10) = true) ∧
    (∀ (node1 node2 : Node) (rest : List Node) (processed : List String),
      node2 ∈ (collect_members node1 rest processed).1 →
        node1.type = node2.type ∧
        is_similar_text node1.label node2.label (8/10) = true) := by
  refine ⟨?_, ?_, fun t1 t2 => similar_of_ratio t1 t2, ?_⟩
  · intro t1 t2
    by_cases heq : t1 = t2
    · simp [is_similar_text, heq]
    · rw [is_similar_text, if_neg heq]
      split_ifs with h3
      · simp only [Bool.false_eq_true, false_iff]
        rintro (h' | ⟨h31, h32, _⟩)
        · exact heq h'
        · rcases h3 with h3 | h3 <;> omega
      · push_neg at h3
        simp only [decide_eq_true_eq]
        constructor
        · intro hr
          exact Or.inr ⟨h3.1, h3.2, hr⟩
        · rintro (h' | h')
          · exact absurd h' heq
          · exact h'.2.2
  · intro t1 t2 heq hlt
    rw [is_similar_text, if_neg heq]
    split_ifs with h3
    · rfl
    · exact decide_eq_false (not_le.mpr hlt)
  · intro node1 node2 rest
    induction rest with
    | nil => intro processed h; simp [collect_members] at h
    | cons n rest ih =>
      intro processed h
      rw [collect_members] at h
      split_ifs at h with h1 h2
      · exact ih _ h
      · rcases List.mem_cons.mp h with h' | h'
        · subst h'; exact h2
        · exact ih _ h'
      · exact ih _ h

/-- Witness for C4 at exact boundary cases: ratio 4/5 must merge,
ratio 3/5 with distinct labels must not. -/
theorem c4_merge_similarity_witness :
    is_similar_text "abcde" "abcdx" (8/10) = true ∧
    is_similar_text "abcde" "abcxy" (8/10) = false := by
  constructor
  · apply c4_merge_similarity.2.2.1
    rw [show similarity_ratio "abcde" "abcdx" = 4/5 by with_unfolding_all rfl]
    norm_num
  · apply c4_merge_similarity.2.1
    · decide
    · rw [show similarity_ratio "abcde" "abcxy" = 3/5 by with_unfolding_all rfl]
      norm_num

/-- The membership table of `determine_relation_type`: any non-empty result
is one of the six table entries. -/
theorem determine_relation_type_mem (t1 t2 : String)
    (h : determine_relation_type t1 t2 ≠ "") :
    determine_relation_type t1 t2 ∈
      ["regulates", "leads_to", "specifies_penalty", "commits", "involves", "defines"] := by
  rw [determine_relation_type] at h ⊢
  split_ifs at h ⊢ <;> simp_all

/-- Claim C6: every edge produced by relationship inference joins two
entities of distinct categories sharing a segment id, its relation type is
the table lookup for that ordered category pair and is one of the six table
entries; and when no category pair of the input is in the table, no edge is
produced at all. -/
theorem c6_relation_inference (entities : List (String × List Entity)) :
    (∀ e ∈ find_relationships entities,
      e.relation ∈
        ["regulates", "leads_to", "specifies_penalty", "commits", "involves", "defines"] ∧
      ∃ p1 ∈ entities, ∃ p2 ∈ entities, ∃ e1 ∈ p1.2, ∃ e2 ∈ p2.2,
        p1.1 ≠ p2.1 ∧ e1.segment_id = e2.segment_id ∧
        e.source = e1.id ∧ e.target = e2.id ∧
        e.relation = determine_relation_type p1.1 p2.1) ∧
    ((∀ p1 ∈ entities, ∀ p2 ∈ entities, p1.1 ≠ p2.1 →
        determine_relation_type p1.1 p2.1 = "") →
      find_relationships entities = []) := by
  constructor
  · intro e he
    simp only [find_relationships, List.mem_flatMap, mem_ite_nil,
      List.mem_filterMap] at he
    obtain ⟨p1, hp1, e1, he1, p2, hp2, hne, e2, he2, hf⟩ := he
    by_cases hseg : e1.segment_id = e2.segment_id
    · rw [if_pos hseg] at hf
      by_cases hrel : determine_relation_type p1.1 p2.1 ≠ ""
      · rw [if_pos hrel] at hf
        injection hf with hf
        subst hf
        exact ⟨determine_relation_type_mem _ _ hrel,
          p1, hp1, p2, hp2, e1, he1, e2, he2, hne, hseg, rfl, rfl, rfl⟩
      · rw [if_neg hrel] at hf
        cases hf
    · rw [if_neg hseg] at hf
      cases hf
  · intro hall
    rw [find_relationships, List.flatMap_eq_nil_iff]
    intro p1 hp1
    rw [List.flatMap_eq_nil_iff]
    intro e1 he1
    rw [List.flatMap_eq_nil_iff]
    intro p2 hp2
    by_cases hne : p1.1 ≠ p2.1
    · rw [if_pos hne, List.filterMap_eq_nil_iff]
      intro e2 he2
      rw [hall p1 hp1 p2 hp2 hne]
      simp
    · rw [if_neg hne]

/-- Witness for C6 at `c6_entities`. -/
theorem c6_relation_inference_witness :
    (Edge.mk "a" "b" "regulates" (7/10) "src").relation ∈
      ["regulates", "leads_to", "specifies_penalty", "commits", "involves", "defines"] ∧
    ∃ p1 ∈ c6_entities, ∃ p2 ∈ c6_entities,
      ∃ e1 ∈ p1.2, ∃ e2 ∈ p2.2,
        p1.1 ≠ p2.1 ∧ e1.segment_id = e2.segment_id ∧
        (Edge.mk "a" "b" "regulates" (7/10) "src").source = e1.id ∧
        (Edge.mk "a" "b" "regulates" (7/10) "src").target = e2.id ∧
        (Edge.mk "a" "b" "regulates" (7/10) "src").relation =
          determine_relation_type p1.1 p2.1 := by
  have h : find_relationships c6_entities = [Edge.mk "a" "b" "regulates" (7/10) "src"] := by
    with_unfolding_all rfl
  exact (c6_relation_inference c6_entities).1 _ (h ▸ List.mem_singleton.mpr rfl)

set_option maxRecDepth 4000 in
/-- Claim C3 (evaluation of the code at the failing input): when the
model-driven strategy returns all-empty categories and the rule-based
fallback finds the concept "compliance", the produced entity carries
confidence 0.8, not the 0.6 the specification (and the source's own inline
comment "Lower confidence for local extraction") prescribe: inside the
entity loop the expression `any(entities.values())` is evaluated on the
post-fallback dictionary, which is non-empty whenever any entity is
produced at all. -/
theorem c3_fallback_confidence_bug :
    extract_entities_from_document
        (fun _ => [("legal_articles", []), ("violations", []), ("penalties", []),
          ("responsible_parties", []), ("related_concepts", [])])
        (fun _ => [("related_concepts", ["compliance"])])
        "doc" [⟨"seg1", "compliance"⟩] =
      [("related_concepts",
        { id := ""
          text := "compliance"
          type := "CONCEPT"
          document_id := "doc"
          segment_id := "seg1"
          confidence := 8/10
          source := "compliance..." })] ∧
    (8 : ℚ)/10 ≠ 6/10 := by
  constructor
  · with_unfolding_all rfl
  · norm_num

theorem collect_members_sub (node1 : Node) :
    ∀ (rest : List Node) (p : List String), (collect_members node1 rest p).1 ⊆ rest := by
  intro rest
  induction rest with
  | nil => intro p; rw [collect_members]; exact fun _ h => absurd h (List.not_mem_nil _)
  | cons node2 rest ih =>
    intro p
    rw [collect_members]
    split_ifs with h1 h2
    · exact (ih p).trans (List.subset_cons_self _ _)
    · intro m hm
      rcases List.mem_cons.mp hm with h' | h'
      · exact h' ▸ List.mem_cons_self _ _
      · exact List.mem_cons_of_mem _ (ih _ h')
    · exact (ih p).trans (List.subset_cons_self _ _)

theorem collect_members_id_not_mem (node1 : Node) :
    ∀ (rest : List Node) (p : List String) (m : Node),
      m ∈ (collect_members node1 rest p).1 → m.id ∉ p := by
  intro rest
  induction rest with
  | nil => intro p m hm; rw [collect_members] at hm; cases hm
  | cons node2 rest ih =>
    intro p m hm
    rw [collect_members] at hm
    split_ifs at hm with h1 h2
    · exact ih p m hm
    · rcases List.mem_cons.mp hm with h' | h'
      · exact h' ▸ h1
      · intro hc
        exact ih _ m h' (List.mem_cons_of_mem _ hc)
    · exact ih p m hm

theorem collect_members_snd (node1 : Node) :
    ∀ (rest : List Node) (p : List String) (x : String),
      x ∈ (collect_members node1 rest p).2 ↔
        x ∈ p ∨ x ∈ (collect_members node1 rest p).1.map Node.id := by
  intro rest
  induction rest with
  | nil => intro p x; rw [collect_members]; simp
  | cons node2 rest ih =>
    intro p x
    rw [collect_members]
    split_ifs with h1 h2
    · exact (ih p x).trans (by tauto)
    · show x ∈ (collect_members node1 rest (node2.id :: p)).2 ↔ _
      rw [ih]
      simp only [List.map_cons, List.mem_cons]
      tauto
    · exact (ih p x).trans (by tauto)

theorem collect_members_ids_nodup (node1 : Node) :
    ∀ (rest : List Node) (p : List String),
      ((collect_members node1 rest p).1.map Node.id).Nodup := by
  intro rest
  induction rest with
  | nil => intro p; rw [collect_members]; simp
  | cons node2 rest ih =>
    intro p
    rw [collect_members]
    split_ifs with h1 h2
    · exact ih p
    · show ((node2 :: (collect_members node1 rest (node2.id :: p)).1).map Node.id).Nodup
      rw [List.map_cons, List.nodup_cons]
      refine ⟨?_, ih _⟩
      intro hc
      obtain ⟨m, hm, hid⟩ := List.mem_map.mp hc
      exact collect_members_id_not_mem node1 rest _ m hm (hid ▸ List.mem_cons_self _ _)
    · exact ih p

theorem collect_groups_mem :
    ∀ (l : List Node) (p : List String) (g : Node × List Node),
      g ∈ collect_groups l p →
        g.1 ∈ l ∧ g.2 ⊆ l ∧ g.1.id ∉ p ∧ ∀ m ∈ g.2, m.id ∉ p := by
  intro l
  induction l with
  | nil => intro p g hg; rw [collect_groups] at hg; cases hg
  | cons node1 rest ih =>
    intro p g hg
    rw [collect_groups] at hg
    split_ifs at hg with h1 h2
    · obtain ⟨ha, hb, hc, hd⟩ := ih p g hg
      exact ⟨List.mem_cons_of_mem _ ha, hb.trans (List.subset_cons_self _ _), hc, hd⟩
    · obtain ⟨ha, hb, hc, hd⟩ := ih _ g hg
      have hsub : p ⊆ (collect_members node1 rest p).2 := fun x hx =>
        (collect_members_snd node1 rest p x).mpr (Or.inl hx)
      refine ⟨List.mem_cons_of_mem _ ha, hb.trans (List.subset_cons_self _ _), ?_, ?_⟩
      · intro hcx
        exact hc (List.mem_cons_of_mem _ (hsub hcx))
      · intro m hm hmx
        exact hd m hm (List.mem_cons_of_mem _ (hsub hmx))
    · rcases List.mem_cons.mp hg with h' | h'
      · subst h'
        refine ⟨List.mem_cons_self _ _,
          (collect_members_sub node1 rest p).trans (List.subset_cons_self _ _), h1, ?_⟩
        intro m hm
        exact collect_members_id_not_mem node1 rest p m hm
      · obtain ⟨ha, hb, hc, hd⟩ := ih _ g h'
        have hsub : p ⊆ (collect_members node1 rest p).2 := fun x hx =>
          (collect_members_snd node1 rest p x).mpr (Or.inl hx)
        refine ⟨List.mem_cons_of_mem _ ha, hb.trans (List.subset_cons_self _ _), ?_, ?_⟩
        · intro hcx
          exact hc (List.mem_cons_of_mem _ (hsub hcx))
        · intro m hm hmx
          exact hd m hm (List.mem_cons_of_mem _ (hsub hmx))

theorem collect_groups_ids_avoid (l : List Node) (p : List String)
    (g : Node × List Node) (hg : g ∈ collect_groups l p) :
    ∀ x ∈ group_ids g, x ∈ l.map Node.id ∧ x ∉ p := by
  obtain ⟨ha, hb, hc, hd⟩ := collect_groups_mem l p g hg
  intro x hx
  rcases List.mem_cons.mp hx with h' | h'
  · exact h' ▸ ⟨List.mem_map_of_mem _ ha, hc⟩
  · obtain ⟨m, hm, hid⟩ := List.mem_map.mp h'
    exact hid ▸ ⟨List.mem_map_of_mem _ (hb hm), hd m hm⟩

theorem collect_groups_ids_nodup :
    ∀ (l : List Node) (p : List String), (l.map Node.id).Nodup →
      ((collect_groups l p).map group_ids).flatten.Nodup := by
  intro l
  induction l with
  | nil => intro p _; rw [collect_groups]; simp
  | cons node1 rest ih =>
    intro p hl
    rw [List.map_cons, List.nodup_cons] at hl
    rw [collect_groups]
    split_ifs with h1 h2
    · exact ih p hl.2
    · exact ih _ hl.2
    · rw [List.map_cons, List.flatten_cons, List.nodup_append]
      have hsub1 : (collect_members node1 rest p).1.map Node.id ⊆
          (collect_members node1 rest p).2 := fun x hx =>
        (collect_members_snd node1 rest p x).mpr (Or.inr hx)
      refine ⟨?_, ih _ hl.2, ?_⟩
      · rw [group_ids, List.nodup_cons]
        refine ⟨?_, collect_members_ids_nodup node1 rest p⟩
        intro hc
        obtain ⟨m, hm, hid⟩ := List.mem_map.mp hc
        exact hl.1 (hid ▸ List.mem_map_of_mem _ (collect_members_sub node1 rest p hm))
      · intro x hx hx'
        obtain ⟨ids, hids, hxids⟩ := List.mem_flatten.mp hx'
        obtain ⟨g', hg', rfl⟩ := List.mem_map.mp hids
        have havoid := collect_groups_ids_avoid rest _ g' hg' x hxids
        rcases List.mem_cons.mp hx with h' | h'
        · exact havoid.2 (h' ▸ List.mem_cons_self _ _)
        · exact havoid.2 (List.mem_cons_of_mem _ (hsub1 h'))

theorem rewrite_id_all_of_not_mem :
    ∀ (gs : List (Node × List Node)) (x : String),
      (∀ g ∈ gs, x ∉ tail_ids g) → rewrite_id_all gs x = x := by
  intro gs
  induction gs with
  | nil => intro x _; rfl
  | cons g gs ih =>
    intro x h
    show rewrite_id_all gs (rewrite_id g x) = x
    rw [rewrite_id, if_neg (h g (List.mem_cons_self _ _))]
    exact ih x fun g' hg' => h g' (List.mem_cons_of_mem _ hg')

theorem rewrite_id_all_mem :
    ∀ (gs : List (Node × List Node)) (x : String),
      ((gs.map group_ids).flatten).Nodup →
      (∃ g ∈ gs, x ∈ tail_ids g) →
      ∃ g ∈ gs, rewrite_id_all gs x = g.1.id := by
  intro gs
  induction gs with
  | nil => intro x _ h; obtain ⟨g, hg, _⟩ := h; cases hg
  | cons g gs ih =>
    intro x hn hx
    rw [List.map_cons, List.flatten_cons, List.nodup_append] at hn
    by_cases hxg : x ∈ tail_ids g
    · refine ⟨g, List.mem_cons_self _ _, ?_⟩
      show rewrite_id_all gs (rewrite_id g x) = g.1.id
      rw [rewrite_id, if_pos hxg]
      apply rewrite_id_all_of_not_mem
      intro g' hg' hc
      refine hn.2.2 (List.mem_cons_self _ _) ?_
      exact List.mem_flatten.mpr ⟨group_ids g', List.mem_map_of_mem _ hg',
        List.mem_cons_of_mem _ hc⟩
    · obtain ⟨g', hg', hxg'⟩ := hx
      rcases List.mem_cons.mp hg' with h' | h'
      · exact absurd (h' ▸ hxg') hxg
      · obtain ⟨g'', hg'', heq⟩ := ih x hn.2.1 ⟨g', h', hxg'⟩
        refine ⟨g'', List.mem_cons_of_mem _ hg'', ?_⟩
        show rewrite_id_all gs (rewrite_id g x) = g''.1.id
        rw [rewrite_id, if_neg hxg]
        exact heq

theorem head_id_not_in_tails :
    ∀ (gs : List (Node × List Node)) (g : Node × List Node),
      ((gs.map group_ids).flatten).Nodup → g ∈ gs →
      ∀ g' ∈ gs, g.1.id ∉ tail_ids g' := by
  intro gs
  induction gs with
  | nil => intro g _ hg; cases hg
  | cons g0 gs ih =>
    intro g hn hg g' hg'
    rw [List.map_cons, List.flatten_cons, List.nodup_append] at hn
    rcases List.mem_cons.mp hg with hgeq | hgmem
    · subst hgeq
      rcases List.mem_cons.mp hg' with hg'eq | hg'mem
      · subst hg'eq
        rw [group_ids, List.nodup_cons] at hn
        exact hn.1.1
      · intro hc
        refine hn.2.2 (List.mem_cons_self _ _) ?_
        exact List.mem_flatten.mpr ⟨group_ids g', List.mem_map_of_mem _ hg'mem,
          List.mem_cons_of_mem _ hc⟩
    · rcases List.mem_cons.mp hg' with hg'eq | hg'mem
      · subst hg'eq
        intro hc
        refine hn.2.2 (List.mem_cons_of_mem _ hc) ?_
        exact List.mem_flatten.mpr ⟨group_ids g, List.mem_map_of_mem _ hgmem,
          List.mem_cons_self _ _⟩
      · exact ih g hn.2.1 hgmem g' hg'mem

theorem merge_edges_eq_map :
    ∀ (gs : List (Node × List Node)) (es : List Edge),
      gs.foldl (fun es g => apply_group g es) es =
        es.map (fun e =>
          { e with
            source := rewrite_id_all gs e.source
            target := rewrite_id_all gs e.target }) := by
  intro gs
  induction gs with
  | nil =>
    intro es
    show es = _
    conv_lhs => rw [← List.map_id es]
    rfl
  | cons g gs ih =>
    intro es
    rw [List.foldl_cons, ih, apply_group, List.map_map]
    rfl

theorem merge_nodes_eq_diff :
    ∀ (gs : List (Node × List Node)) (ns : List Node),
      gs.foldl (fun ns g => remove_group_nodes g ns) ns =
        ns.diff (gs.flatMap Prod.snd) := by
  intro gs
  induction gs with
  | nil => intro ns; rfl
  | cons g gs ih =>
    intro ns
    rw [List.foldl_cons, ih, List.flatMap_cons, List.diff_append, List.diff_eq_foldl ns g.2]
    rfl

/-- Every node id resolves, through the complete endpoint rewrite, to the
id of a node surviving the merge. -/
theorem resolve_mem_after_merge (nodes : List Node)
    (hN : (nodes.map Node.id).Nodup) (x : String) (hx : x ∈ nodes.map Node.id) :
    rewrite_id_all (collect_groups nodes []) x ∈
      (nodes.diff ((collect_groups nodes []).flatMap Prod.snd)).map Node.id := by
  have hnodup := collect_groups_ids_nodup nodes [] hN
  have hNodupN : nodes.Nodup := hN.of_map
  by_cases hmem : ∃ g ∈ collect_groups nodes [], x ∈ tail_ids g
  · obtain ⟨g, hg, heq⟩ := rewrite_id_all_mem _ x hnodup hmem
    rw [heq]
    have hgmem := (collect_groups_mem nodes [] g hg).1
    have hnotrem : g.1 ∉ (collect_groups nodes []).flatMap Prod.snd := by
      intro hc
      obtain ⟨g', hg', hmem'⟩ := List.mem_flatMap.mp hc
      exact head_id_not_in_tails _ g hnodup hg g' hg'
        (List.mem_map_of_mem Node.id hmem')
    exact List.mem_map_of_mem _ ((hNodupN.mem_diff_iff).mpr ⟨hgmem, hnotrem⟩)
  · push_neg at hmem
    rw [rewrite_id_all_of_not_mem _ x hmem]
    obtain ⟨n, hn, rfl⟩ := List.mem_map.mp hx
    have hnotrem : n ∉ (collect_groups nodes []).flatMap Prod.snd := by
      intro hc
      obtain ⟨g', hg', hmem'⟩ := List.mem_flatMap.mp hc
      exact hmem g' hg' (List.mem_map_of_mem Node.id hmem')
    exact List.mem_map_of_mem _ ((hNodupN.mem_diff_iff).mpr ⟨hn, hnotrem⟩)

/-- Claim C5: when node ids are distinct (as the UUID-assigning build path
guarantees) and every edge endpoint is a node id, the merge step leaves
every edge endpoint resolving to a surviving node id, and it never changes
(in particular never decreases) the number of edges: rewritten duplicate
edges are not deduplicated. -/
theorem c5_merge_edge_resolution (nodes : List Node) (edges : List Edge)
    (hN : (nodes.map Node.id).Nodup)
    (hE : ∀ e ∈ edges, e.source ∈ nodes.map Node.id ∧ e.target ∈ nodes.map Node.id) :
    (merge_similar_entities nodes edges).2.length = edges.length ∧
    ∀ e ∈ (merge_similar_entities nodes edges).2,
      e.source ∈ (merge_similar_entities nodes edges).1.map Node.id ∧
      e.target ∈ (merge_similar_entities nodes edges).1.map Node.id := by
  have h2 : (merge_similar_entities nodes edges).2 =
      edges.map (fun e =>
        { e with
          source := rewrite_id_all (collect_groups nodes []) e.source
          target := rewrite_id_all (collect_groups nodes []) e.target }) :=
    merge_edges_eq_map _ _
  have h1 : (merge_similar_entities nodes edges).1 =
      nodes.diff ((collect_groups nodes []).flatMap Prod.snd) :=
    merge_nodes_eq_diff _ _
  constructor
  · rw [h2, List.length_map]
  · intro e he
    rw [h2, List.mem_map] at he
    obtain ⟨e0, he0, rfl⟩ := he
    rw [h1]
    exact ⟨resolve_mem_after_merge nodes hN e0.source (hE e0 he0).1,
      resolve_mem_after_merge nodes hN e0.target (hE e0 he0).2⟩

/-- Witness for C5 at `c5_nodes`/`c5_edges`. -/
theorem c5_merge_edge_resolution_witness :
    (merge_similar_entities c5_nodes c5_edges).2.length = c5_edges.length ∧
    ∀ e ∈ (merge_similar_entities c5_nodes c5_edges).2,
      e.source ∈ (merge_similar_entities c5_nodes c5_edges).1.map Node.id ∧
      e.target ∈ (merge_similar_entities c5_nodes c5_edges).1.map Node.id :=
  c5_merge_edge_resolution c5_nodes c5_edges (by decide)
    (by intro e he; fin_cases he; exact ⟨by decide, by decide⟩)

theorem query_edge_loop_ids_mono (rt : Option String) :
    ∀ (es : List Edge) (acc : List Edge) (ids : List String),
      ids ⊆ (query_edge_loop rt es (acc, ids)).2 := by
  intro es
  induction es with
  | nil => intro acc ids; exact fun _ h => h
  | cons e rest ih =>
    intro acc ids
    rw [query_edge_loop]
    split_ifs
    · exact (List.subset_cons_self _ _).trans
        ((List.subset_cons_self _ _).trans (ih _ _))
    · exact ih _ _

theorem query_edge_loop_acc_mono (rt : Option String) :
    ∀ (es : List Edge) (acc : List Edge) (ids : List String),
      acc ⊆ (query_edge_loop rt es (acc, ids)).1 := by
  intro es
  induction es with
  | nil => intro acc ids; exact fun _ h => h
  | cons e rest ih =>
    intro acc ids
    rw [query_edge_loop]
    split_ifs
    · exact (List.subset_append_left _ [e]).trans (ih _ _)
    · exact ih _ _

theorem query_edge_loop_acc_sub (rt : Option String) :
    ∀ (es : List Edge) (acc : List Edge) (ids : List String),
      (query_edge_loop rt es (acc, ids)).1 ⊆ acc ++ es := by
  intro es
  induction es with
  | nil => intro acc ids; simp [query_edge_loop]
  | cons e rest ih =>
    intro acc ids
    rw [query_edge_loop]
    split_ifs
    · intro x hx
      have := ih _ _ hx
      rw [List.append_cons]
      exact this
    · intro x hx
      rcases List.mem_append.mp (ih _ _ hx) with h' | h'
      · exact List.mem_append_left _ h'
      · exact List.mem_append_right _ (List.mem_cons_of_mem _ h')

theorem query_edge_loop_endpoints (rt : Option String) :
    ∀ (es : List Edge) (acc : List Edge) (ids : List String),
      (∀ e ∈ acc, e.source ∈ ids ∧ e.target ∈ ids) →
      ∀ e ∈ (query_edge_loop rt es (acc, ids)).1,
        e.source ∈ (query_edge_loop rt es (acc, ids)).2 ∧
        e.target ∈ (query_edge_loop rt es (acc, ids)).2 := by
  intro es
  induction es with
  | nil => intro acc ids h; exact h
  | cons e rest ih =>
    intro acc ids h
    rw [query_edge_loop]
    split_ifs with hcond
    · apply ih
      intro e' he'
      rcases List.mem_append.mp he' with h' | h'
      · obtain ⟨hs, ht⟩ := h e' h'
        exact ⟨List.mem_cons_of_mem _ (List.mem_cons_of_mem _ hs),
          List.mem_cons_of_mem _ (List.mem_cons_of_mem _ ht)⟩
      · rw [List.mem_singleton.mp h']
        exact ⟨List.mem_cons_of_mem _ (List.mem_cons_self _ _),
          List.mem_cons_self _ _⟩
    · exact ih _ _ h

theorem query_edge_loop_ids_origin (rt : Option String) :
    ∀ (es : List Edge) (acc : List Edge) (ids : List String) (x : String),
      x ∈ (query_edge_loop rt es (acc, ids)).2 →
      x ∈ ids ∨ ∃ e ∈ (query_edge_loop rt es (acc, ids)).1,
        x = e.source ∨ x = e.target := by
  intro es
  induction es with
  | nil => intro acc ids x hx; exact Or.inl hx
  | cons e rest ih =>
    intro acc ids x hx
    rw [query_edge_loop] at hx ⊢
    split_ifs at hx ⊢ with hcond
    · rcases ih _ _ x hx with h' | h'
      · rcases List.mem_cons.mp h' with h'' | h''
        · refine Or.inr ⟨e, ?_, Or.inr h''⟩
          exact query_edge_loop_acc_mono rt rest _ _
            (List.mem_append_right _ (List.mem_singleton.mpr rfl))
        · rcases List.mem_cons.mp h'' with h3 | h3
          · refine Or.inr ⟨e, ?_, Or.inl h3⟩
            exact query_edge_loop_acc_mono rt rest _ _
              (List.mem_append_right _ (List.mem_singleton.mpr rfl))
          · exact Or.inl h3
      · exact Or.inr h'
    · exact ih _ _ x hx

/-- Claim C10 counterexample: the claim as stated fails when two stored
nodes share an id, which the claim's precondition (edge endpoints resolve)
does not rule out: querying "match" on a graph with nodes
`{id "1", label "match"}` and `{id "1", label "zzz"}` and no edges returns
the second node, whose label does not contain the query and which is no
edge endpoint. -/
theorem c10_query_closure_counterexample :
    ∃ n ∈ (query_knowledge_graph
        ⟨[⟨"1", "match", "T"⟩, ⟨"1", "zzz", "T"⟩], []⟩ "match" none).1,
      ¬("match".toLower.toList <:+: n.label.toLower.toList) ∧
      ∀ e ∈ (query_knowledge_graph
          ⟨[⟨"1", "match", "T"⟩, ⟨"1", "zzz", "T"⟩], []⟩ "match" none).2,
        n.id ≠ e.source ∧ n.id ≠ e.target := by
  refine ⟨⟨"1", "zzz", "T"⟩, by with_unfolding_all decide,
    by with_unfolding_all decide, by with_unfolding_all decide⟩

/-- Claim C10 amended: on a stored graph with distinct node ids (as the
data model requires) whose edge endpoints all resolve to stored nodes, the
returned subgraph is closed: both endpoints of every returned edge appear
among the returned nodes, and every returned node either contains the query
substring case-insensitively in its label or is an endpoint of a returned
edge. -/
theorem c10_query_closure (g : Graph) (query : String) (rt : Option String)
    (hN : (g.nodes.map Node.id).Nodup)
    (hE : ∀ e ∈ g.edges,
      e.source ∈ g.nodes.map Node.id ∧ e.target ∈ g.nodes.map Node.id) :
    (∀ e ∈ (query_knowledge_graph g query rt).2,
      (∃ n ∈ (query_knowledge_graph g query rt).1, n.id = e.source) ∧
      (∃ n ∈ (query_knowledge_graph g query rt).1, n.id = e.target)) ∧
    (∀ n ∈ (query_knowledge_graph g query rt).1,
      query.toLower.toList <:+: n.label.toLower.toList ∨
      ∃ e ∈ (query_knowledge_graph g query rt).2,
        n.id = e.source ∨ n.id = e.target) := by
  have hq : query_knowledge_graph g query rt =
      (g.nodes.filter (fun n => n.id ∈ (query_edge_loop rt g.edges ([],
          (g.nodes.filter (fun n =>
            decide (query.toLower.toList <:+: n.label.toLower.toList))).map Node.id)).2),
       (query_edge_loop rt g.edges ([],
          (g.nodes.filter (fun n =>
            decide (query.toLower.toList <:+: n.label.toLower.toList))).map Node.id)).1) :=
    rfl
  rw [hq]
  constructor
  · intro e he
    have hsub : e ∈ g.edges := by
      have := query_edge_loop_acc_sub rt g.edges [] _ he
      simpa using this
    have hend := query_edge_loop_endpoints rt g.edges []
      ((g.nodes.filter (fun n =>
        decide (query.toLower.toList <:+: n.label.toLower.toList))).map Node.id)
      (by intro e' he'; cases he') e he
    constructor
    · obtain ⟨n, hn, hid⟩ := List.mem_map.mp (hE e hsub).1
      refine ⟨n, List.mem_filter.mpr ⟨hn, ?_⟩, hid⟩
      rw [decide_eq_true_eq, hid]
      exact hend.1
    · obtain ⟨n, hn, hid⟩ := List.mem_map.mp (hE e hsub).2
      refine ⟨n, List.mem_filter.mpr ⟨hn, ?_⟩, hid⟩
      rw [decide_eq_true_eq, hid]
      exact hend.2
  · intro n hn
    obtain ⟨hmem, hid⟩ := List.mem_filter.mp hn
    rw [decide_eq_true_eq] at hid
    rcases query_edge_loop_ids_origin rt g.edges [] _ n.id hid with h' | h'
    · obtain ⟨m, hm, hmid⟩ := List.mem_map.mp h'
      obtain ⟨hmmem, hmmatch⟩ := List.mem_filter.mp hm
      rw [decide_eq_true_eq] at hmmatch
      have : m = n := List.inj_on_of_nodup_map hN hmmem hmem hmid
      exact Or.inl (this ▸ hmmatch)
    · obtain ⟨e, he, hor⟩ := h'
      exact Or.inr ⟨e, he, hor⟩

/-- Witness for the amended C10 at a small concrete graph. -/
theorem c10_query_closure_witness :
    (∀ e ∈ (query_knowledge_graph ⟨c5_nodes, c5_edges⟩ "price" none).2,
      (∃ n ∈ (query_knowledge_graph ⟨c5_nodes, c5_edges⟩ "price" none).1,
        n.id = e.source) ∧
      (∃ n ∈ (query_knowledge_graph ⟨c5_nodes, c5_edges⟩ "price" none).1,
        n.id = e.target)) ∧
    (∀ n ∈ (query_knowledge_graph ⟨c5_nodes, c5_edges⟩ "price" none).1,
      "price".toLower.toList <:+: n.label.toLower.toList ∨
      ∃ e ∈ (query_knowledge_graph ⟨c5_nodes, c5_edges⟩ "price" none).2,
        n.id = e.source ∨ n.id = e.target) :=
  c10_query_closure ⟨c5_nodes, c5_edges⟩ "price" none (by decide)
    (by intro e he; fin_cases he; exact ⟨by decide, by decide⟩)

end KnowledgeGraph

namespace VectorService

theorem insert_desc_perm (x : ℚ × Seg) :
    ∀ l : List (ℚ × Seg), (insert_desc x l).Perm (x :: l) := by
  intro l
  induction l with
  | nil => exact List.Perm.refl _
  | cons y ys ih =>
    rw [insert_desc]
    split_ifs
    · exact List.Perm.refl _
    · exact (List.Perm.cons y ih).trans (List.Perm.swap x y ys)

theorem sort_desc_perm : ∀ l : List (ℚ × Seg), (sort_desc l).Perm l := by
  intro l
  induction l with
  | nil => exact List.Perm.refl _
  | cons x xs ih => exact (insert_desc_perm x (sort_desc xs)).trans (ih.cons x)

theorem insert_desc_sorted (x : ℚ × Seg) :
    ∀ l : List (ℚ × Seg), l.Pairwise (fun a b => b.1 ≤ a.1) →
      (insert_desc x l).Pairwise (fun a b => b.1 ≤ a.1) := by
  intro l
  induction l with
  | nil => intro _; exact List.pairwise_singleton _ _
  | cons y ys ih =>
    intro hl
    rw [List.pairwise_cons] at hl
    rw [insert_desc]
    split_ifs with hxy
    · rw [List.pairwise_cons]
      refine ⟨?_, List.pairwise_cons.mpr hl⟩
      intro a ha
      rcases List.mem_cons.mp ha with h' | h'
      · exact h' ▸ hxy
      · exact (hl.1 a h').trans hxy
    · rw [List.pairwise_cons]
      refine ⟨?_, ih hl.2⟩
      intro a ha
      rcases List.mem_cons.mp ((insert_desc_perm x ys).mem_iff.mp ha) with h' | h'
      · exact h' ▸ le_of_not_le hxy
      · exact hl.1 a h'

theorem sort_desc_sorted :
    ∀ l : List (ℚ × Seg), (sort_desc l).Pairwise (fun a b => b.1 ≤ a.1) := by
  intro l
  induction l with
  | nil => exact List.Pairwise.nil
  | cons x xs ih => exact insert_desc_sorted x (sort_desc xs) ih

theorem filter_insert_desc (x : ℚ × Seg) (s : ℚ) :
    ∀ l : List (ℚ × Seg), l.Pairwise (fun a b => b.1 ≤ a.1) →
      (insert_desc x l).filter (fun a => decide (a.1 = s)) =
        if x.1 = s then x :: l.filter (fun a => decide (a.1 = s))
        else l.filter (fun a => decide (a.1 = s)) := by
  intro l
  induction l with
  | nil =>
    intro _
    rw [insert_desc]
    by_cases hx : x.1 = s <;> simp [List.filter, hx]
  | cons y ys ih =>
    intro hl
    rw [List.pairwise_cons] at hl
    rw [insert_desc]
    by_cases hxy : y.1 ≤ x.1
    · rw [if_pos hxy, List.filter_cons, List.filter_cons]
      by_cases hx : x.1 = s <;> by_cases hy : y.1 = s <;> simp [hx, hy]
    · rw [if_neg hxy, List.filter_cons, ih hl.2, List.filter_cons]
      by_cases hx : x.1 = s
      · have hys : ¬(y.1 = s) := fun hc => hxy (le_of_eq (hc.trans hx.symm))
        simp [hx, hys]
      · by_cases hy : y.1 = s <;> simp [hx, hy]

theorem sort_desc_stable (s : ℚ) :
    ∀ l : List (ℚ × Seg),
      (sort_desc l).filter (fun a => decide (a.1 = s)) =
        l.filter (fun a => decide (a.1 = s)) := by
  intro l
  induction l with
  | nil => rfl
  | cons x xs ih =>
    rw [sort_desc, filter_insert_desc x s (sort_desc xs) (sort_desc_sorted xs), ih,
      List.filter_cons]
    by_cases hx : x.1 = s <;> simp [hx]

theorem filter_ge_eq_takeWhile (m : ℚ) :
    ∀ l : List (ℚ × Seg), l.Pairwise (fun a b => b.1 ≤ a.1) →
      l.filter (fun a => decide (m ≤ a.1)) = l.takeWhile (fun a => decide (m ≤ a.1)) := by
  intro l
  induction l with
  | nil => intro _; rfl
  | cons x xs ih =>
    intro hl
    rw [List.pairwise_cons] at hl
    rw [List.filter_cons, List.takeWhile_cons]
    split_ifs with hx
    · rw [ih hl.2]
    · rw [decide_eq_true_eq, not_le] at hx
      rw [List.filter_eq_nil_iff.mpr]
      intro a ha
      rw [decide_eq_true_eq, not_le]
      exact lt_of_le_of_lt (hl.1 a ha) hx

theorem takeWhile_take {α : Type} (p : α → Bool) :
    ∀ (l : List α) (n : ℕ), (l.take n).takeWhile p = (l.takeWhile p).take n := by
  intro l
  induction l with
  | nil => intro n; simp
  | cons x xs ih =>
    intro n
    cases n with
    | zero => simp
    | succ n =>
      rw [List.take_succ_cons, List.takeWhile_cons, List.takeWhile_cons]
      split_ifs
      · rw [List.take_succ_cons, ih]
      · rfl

/-- Claim C7: search scores every stored segment across all documents and
returns the first `top_k` of the stable non-increasing sort (first
conjunct); the result is sorted non-increasingly (second); entries of equal
similarity keep their insertion order (third); `top_k` at least the number
of stored segments returns them all (fourth); and `search_regulations` with
a `min_similarity` filter returns the first `top_k` entries of the sorted
list whose score reaches the minimum (fifth) — the over-fetch of
`top_k * 2` never loses a qualifying entry because qualifying entries form
a prefix of the sorted list. -/
theorem c7_search_pipeline (sim : List ℚ → List ℚ → ℚ) (query_embedding : List ℚ)
    (vectors_data : List (String × DocIndex)) (top_k : ℕ) (m : ℚ) :
    (find_similar_segments sim query_embedding vectors_data top_k =
      (sort_desc ((vectors_data.flatMap (fun d => d.2.segments)).map
        (fun segment => (sim query_embedding segment.vector, segment)))).take top_k) ∧
    (find_similar_segments sim query_embedding vectors_data top_k).Pairwise
      (fun a b => b.1 ≤ a.1) ∧
    (∀ s : ℚ,
      (sort_desc ((vectors_data.flatMap (fun d => d.2.segments)).map
        (fun segment => (sim query_embedding segment.vector, segment)))).filter
          (fun a => decide (a.1 = s)) =
      ((vectors_data.flatMap (fun d => d.2.segments)).map
        (fun segment => (sim query_embedding segment.vector, segment))).filter
          (fun a => decide (a.1 = s))) ∧
    ((vectors_data.flatMap (fun d => d.2.segments)).length ≤ top_k →
      (find_similar_segments sim query_embedding vectors_data top_k).Perm
        ((vectors_data.flatMap (fun d => d.2.segments)).map
          (fun segment => (sim query_embedding segment.vector, segment)))) ∧
    (search_regulations sim query_embedding vectors_data
        (some ⟨some m, none⟩) top_k =
      ((sort_desc ((vectors_data.flatMap (fun d => d.2.segments)).map
        (fun segment => (sim query_embedding segment.vector, segment)))).filter
          (fun a => decide (m ≤ a.1))).take top_k) := by
  have heq : find_similar_segments sim query_embedding vectors_data top_k =
      (sort_desc ((vectors_data.flatMap (fun d => d.2.segments)).map
        (fun segment => (sim query_embedding segment.vector, segment)))).take top_k := by
    rw [find_similar_segments]
    split_ifs with h
    · rw [List.isEmpty_iff] at h
      rw [h]
      simp [sort_desc]
    · rfl
  refine ⟨heq, ?_, fun s => sort_desc_stable s _, ?_, ?_⟩
  · rw [heq]
    exact List.Pairwise.sublist (List.take_sublist _ _) (sort_desc_sorted _)
  · intro hlen
    rw [heq]
    have hlen' : (sort_desc ((vectors_data.flatMap (fun d => d.2.segments)).map
        (fun segment => (sim query_embedding segment.vector, segment)))).length ≤ top_k := by
      rw [(sort_desc_perm _).length_eq, List.length_map]
      exact hlen
    rw [List.take_of_length_le hlen']
    exact sort_desc_perm _
  · have heq2 : find_similar_segments sim query_embedding vectors_data (top_k * 2) =
        (sort_desc ((vectors_data.flatMap (fun d => d.2.segments)).map
          (fun segment => (sim query_embedding segment.vector, segment)))).take (top_k * 2) := by
      rw [find_similar_segments]
      split_ifs with h
      · rw [List.isEmpty_iff] at h
        rw [h]
        simp [sort_desc]
      · rfl
    rw [search_regulations]
    simp only [heq2]
    have hfb : (fun s : ℚ × Seg =>
        (match (some m : Option ℚ) with
         | some m => decide (m ≤ s.1)
         | none => true) &&
        (match (none : Option (List String)) with
         | some kws => kws.any (fun k => decide (k.toList <:+: s.2.content.toList))
         | none => true)) = fun s : ℚ × Seg => decide (m ≤ s.1) := by
      funext s
      simp
    rw [hfb]
    have hsorted := sort_desc_sorted ((vectors_data.flatMap (fun d => d.2.segments)).map
      (fun segment => (sim query_embedding segment.vector, segment)))
    rw [filter_ge_eq_takeWhile m _ (List.Pairwise.sublist (List.take_sublist _ _) hsorted),
      takeWhile_take, ← filter_ge_eq_takeWhile m _ hsorted, List.take_take,
      Nat.min_eq_left (Nat.le_mul_of_pos_right top_k (by norm_num))]

/-- Witness for C7: with `top_k = 5`, at least the number of stored
segments, the search returns all of them (as a permutation of the scored
insertion-order list). -/
theorem c7_search_pipeline_witness :
    (find_similar_segments (fun _ v => v.headD 0) [1] c7_store 5).Perm
      ((c7_store.flatMap (fun d => d.2.segments)).map
        (fun segment => ((fun (_ : List ℚ) v => v.headD 0) [1] segment.vector,
          segment))) :=
  (c7_search_pipeline (fun _ v => v.headD 0) [1] c7_store 5 0).2.2.2.1
    (by with_unfolding_all decide)

theorem dotR_cons (x y : ℝ) (xs ys : List ℝ) :
    dotR (x :: xs) (y :: ys) = x * y + dotR xs ys := rfl

theorem dotR_nil_left (v : List ℝ) : dotR [] v = 0 := by cases v <;> rfl

theorem dotR_nil_right (u : List ℝ) : dotR u [] = 0 := by cases u <;> rfl

theorem dotR_comm : ∀ u v : List ℝ, dotR u v = dotR v u
  | [], v => by rw [dotR_nil_left, dotR_nil_right]
  | _ :: _, [] => by rw [dotR_nil_left, dotR_nil_right]
  | x :: xs, y :: ys => by rw [dotR_cons, dotR_cons, mul_comm, dotR_comm xs ys]

theorem dotR_self_nonneg : ∀ v : List ℝ, 0 ≤ dotR v v
  | [] => le_refl 0
  | x :: xs => by
    rw [dotR_cons]
    have h1 := dotR_self_nonneg xs
    nlinarith [mul_self_nonneg x]

theorem dotR_self_pos : ∀ v : List ℝ, (∃ x ∈ v, x ≠ 0) → 0 < dotR v v
  | [] => by rintro ⟨x, hx, _⟩; cases hx
  | x :: xs => by
    rintro ⟨y, hy, hy0⟩
    rw [dotR_cons]
    rcases List.mem_cons.mp hy with h' | h'
    · subst h'
      have h1 := dotR_self_nonneg xs
      nlinarith [mul_self_pos.mpr hy0]
    · have h1 := dotR_self_pos xs ⟨y, h', hy0⟩
      nlinarith [mul_self_nonneg x]

theorem dotR_zero_left : ∀ u v : List ℝ, (∀ x ∈ u, x = 0) → dotR u v = 0
  | [], v, _ => dotR_nil_left v
  | _ :: _, [], _ => dotR_nil_right _
  | x :: xs, y :: ys, h => by
    rw [dotR_cons, h x (List.mem_cons_self _ _),
      dotR_zero_left xs ys (fun a ha => h a (List.mem_cons_of_mem _ ha))]
    ring

theorem dotR_map_div (s : ℝ) : ∀ u v : List ℝ,
    dotR (u.map (fun x => x / s)) (v.map (fun x => x / s)) = dotR u v / (s * s)
  | [], v => by rw [List.map_nil, dotR_nil_left, dotR_nil_left, zero_div]
  | _ :: _, [] => by rw [List.map_nil, dotR_nil_right, dotR_nil_right, zero_div]
  | x :: xs, y :: ys => by
    rw [List.map_cons, List.map_cons, dotR_cons, dotR_cons, dotR_map_div s xs ys]
    by_cases hs : s = 0
    · subst hs
      simp
    · field_simp

theorem l2norm_eq_zero_of (v : List ℝ) (h : ∀ x ∈ v, x = 0) : l2norm v = 0 := by
  rw [l2norm, dotR_zero_left v v h, Real.sqrt_zero]

theorem normalize_row_of_zero (v : List ℝ) (h : ∀ x ∈ v, x = 0) :
    normalize_row v = v := by
  rw [normalize_row, if_pos (l2norm_eq_zero_of v h)]

/-- Claim C9: the similarity function is total and never divides by a zero
magnitude — a zero vector's similarity with anything is 0 in both argument
orders (first conjunct), similarity is symmetric (second), and a non-zero
vector's self-similarity is exactly 1, in particular within 1e-6 of 1
(third). -/
theorem c9_cosine_similarity :
    (∀ v w : List ℝ, (∀ x ∈ v, x = 0) →
      calculate_similarity v w = 0 ∧ calculate_similarity w v = 0) ∧
    (∀ v w : List ℝ, calculate_similarity v w = calculate_similarity w v) ∧
    (∀ v : List ℝ, (∃ x ∈ v, x ≠ 0) →
      calculate_similarity v v = 1 ∧ |calculate_similarity v v - 1| ≤ 1/1000000) := by
  have hsym : ∀ v w : List ℝ, calculate_similarity v w = calculate_similarity w v := by
    intro v w
    rw [calculate_similarity, calculate_similarity]
    by_cases h1 : v = [] ∨ w = []
    · rw [if_pos h1, if_pos h1.symm]
    · rw [if_neg h1, if_neg (fun hc => h1 hc.symm)]
      exact dotR_comm _ _
  have hzero : ∀ v w : List ℝ, (∀ x ∈ v, x = 0) → calculate_similarity v w = 0 := by
    intro v w h
    rw [calculate_similarity]
    split_ifs with h1
    · rfl
    · rw [normalize_row_of_zero v h]
      exact dotR_zero_left v _ h
  refine ⟨fun v w h => ⟨hzero v w h, (hsym w v).trans (hzero v w h)⟩, hsym, ?_⟩
  intro v hv
  have hvne : ¬(v = [] ∨ v = []) := by
    rintro (rfl | rfl) <;> · obtain ⟨x, hx, _⟩ := hv; cases hx
  have hpos : 0 < dotR v v := dotR_self_pos v hv
  have hnne : l2norm v ≠ 0 := ne_of_gt (Real.sqrt_pos.mpr hpos)
  have hone : calculate_similarity v v = 1 := by
    rw [calculate_similarity, if_neg hvne, normalize_row, if_neg hnne,
      dotR_map_div, l2norm, Real.mul_self_sqrt (le_of_lt hpos),
      div_self (ne_of_gt hpos)]
  refine ⟨hone, ?_⟩
  rw [hone]
  norm_num

/-- Witness for C9 at the zero vector `[0, 0]` and the unit vector `[1]`. -/
theorem c9_cosine_similarity_witness :
    calculate_similarity [(0:ℝ), 0] [1] = 0 ∧
    calculate_similarity [(1:ℝ)] [1] = 1 :=
  ⟨(c9_cosine_similarity.1 [0, 0] [1] (by simp)).1,
   (c9_cosine_similarity.2.2 [1] ⟨1, List.mem_singleton.mpr rfl, one_ne_zero⟩).1⟩

end VectorService

namespace RAGService

set_option maxRecDepth 100000 in
/-- Claim C8 counterexample: with exactly 100 characters of budget
remaining, the source drops the overflowing item (`remaining_length > 100`
is strict) while the claim's "at least 100" would truncate it: on
`["aaaaaaa", "a" * 101]` with `max_chars = 120`, the first rendered item
consumes 20 characters, the second needs 114 > 100 = remaining, and the
code's output is the first item alone. -/
theorem c8_context_budget_counterexample :
    build_context_text_claim ["aaaaaaa", String.mk (List.replicate 101 'a')] 120 ≠
      build_context_text ["aaaaaaa", String.mk (List.replicate 101 'a')] 120 ∧
    build_context_text ["aaaaaaa", String.mk (List.replicate 101 'a')] 120 =
      "[Document 1] aaaaaaa" := by
  constructor
  · with_unfolding_all decide
  · with_unfolding_all rfl

theorem build_context_parts_eq_amended :
    ∀ (docs : List String) (i current_length max_length : ℕ),
      current_length ≤ max_length →
      build_context_parts docs i current_length max_length =
        build_context_parts_amended docs i (max_length - current_length) := by
  intro docs
  induction docs with
  | nil => intros; rfl
  | cons content rest ih =>
    intro i current_length max_length hcm
    rw [build_context_parts, build_context_parts_amended]
    by_cases hov : current_length + (doc_text i content).length > max_length
    · rw [if_pos hov,
        if_neg (show ¬((doc_text i content).length ≤ max_length - current_length) by omega)]
    · rw [if_neg hov,
        if_pos (show (doc_text i content).length ≤ max_length - current_length by omega)]
      rw [ih (i + 1) (current_length + (doc_text i content).length) max_length (by omega)]
      rw [Nat.sub_sub]

/-- Claim C8 amended: context building renders items as
`"[Document i] <content>"` and stops before the first item whose addition
would make the cumulative length exceed `max_chars`; that overflowing item
is truncated in place with an ellipsis marker when STRICTLY MORE than 100
characters of budget remain, and dropped entirely otherwise — stated as
extensional equality between the source loop and the amended budget-based
description. -/
theorem c8_context_budget (context_docs : List String) (max_length : ℕ) :
    build_context_text context_docs max_length =
      String.intercalate "\n\n"
        (build_context_parts_amended context_docs 1 max_length) := by
  rw [build_context_text,
    build_context_parts_eq_amended context_docs 1 0 max_length (Nat.zero_le _),
    Nat.sub_zero]

end RAGService

namespace ComplianceAnalyzer

/-- Claim C1: for every compliance status among the four of the base table,
every risk level and every confidence value, `_calculate_risk_score` returns
`base(status) * multiplier(risk_level) * confidence` clamped to `[0,1]` and
rounded to two decimals, with the base and multiplier tables of the
specification (multiplier defaulting to 0.6 on unrecognized levels); in
particular status `Violation`, level `High`, confidence `0.9` yields
`0.81`. -/
theorem c1_risk_score_formula :
    (∀ status ∈ ["Compliant", "Violation", "Risk", "Unknown"],
      ∀ (level : String) (confidence : ℚ),
        calculate_risk_score status level confidence =
          round2 (min (max (spec_base status * spec_multiplier level * confidence) 0) 1)) ∧
    calculate_risk_score "Violation" "High" (9/10) = 81/100 := by
  constructor
  · intro status hstatus level confidence
    fin_cases hstatus <;>
      · show round2 _ = round2 _
        congr 2
  · show round2 (min (max ((9:ℚ)/10 * 1 * (9/10)) 0) 1) = 81/100
    rw [show min (max ((9:ℚ)/10 * 1 * (9/10)) 0) 1 = 81/100 by norm_num]
    show (round_half_even (100 * (81/100)) : ℚ) / 100 = 81/100
    rw [show (100 : ℚ) * (81/100) = 81 by norm_num,
      show round_half_even 81 = 81 by with_unfolding_all rfl]
    norm_num

/-- Witness for C1 at a concrete member of the status table. -/
theorem c1_risk_score_formula_witness :
    calculate_risk_score "Risk" "Low" (1/2) =
      round2 (min (max (spec_base "Risk" * spec_multiplier "Low" * (1/2)) 0) 1) :=
  c1_risk_score_formula.1 "Risk" (by simp) "Low" (1/2)

/-- Claim C2 counterexample: with no regulation segments retrieved, the
degraded result's `compliance_status` is the string "Unable to Determine",
not "Unknown" as the claim states. -/
theorem c2_no_regulations_counterexample :
    ¬ (assess_compliance_risk (fun _ _ => ⟨"Unknown", "Medium", 1/2⟩) "desc"
        []).compliance_status = "Unknown" := by
  decide

/-- Claim C2 amended: for every generation provider, business description
and empty retrieval result, the compliance risk assessment returns the fixed
degraded result `compliance_status = "Unable to Determine"`,
`risk_level = "Medium"`, `risk_score = 0.5`, rather than raising an
error. -/
theorem c2_no_regulations_amended (ai : String → String → AIAnalysis)
    (business_description : String) :
    assess_compliance_risk ai business_description [] =
      { compliance_status := "Unable to Determine"
        risk_level := "Medium"
        risk_score := 1/2 } := rfl

end ComplianceAnalyzer
